import Mathlib

/-!
Shallow embedding of the content-addressable storage engine in
`src/archiver-server/src/storage.rs` (struct `Storage`), together with proofs
settling the frozen claims about it.

Modelling conventions:
- Rust byte slices / `Vec<u8>` are `Bytes := List Nat`; Rust `String`/`str`
  are `Str := List Char` (ASCII-faithful; slicing `&s[..k]` is `List.take`
  guarded by a length check, since Rust panics when the slice is out of
  bounds).
- The sled database, the DashMap hot cache and the filesystem are
  association lists keyed by `Str`; insertion replaces in place or appends
  fresh keys at the end.  Serialized values are modelled by the inductive
  `DbValue` / `FileData` (serde_json round-trips, and deserializing a value
  of the wrong shape fails, which the model reflects by constructor
  mismatch).
- SHA-256 (`sha2` crate) and Zstandard (`zstd` crate) are external
  libraries, so they are parameters of the model (`Env`); theorems that need
  them assume only what those libraries guarantee: the digest is 32 bytes
  (`wfEnv`) and decompression inverts compression (`rtEnv`).  The bloom
  filter (`bloomfilter` crate) is modelled as the set of marked identities
  plus an arbitrary false-positive oracle, so `check` never returns `false`
  for a marked identity but may return `true` for an unmarked one.
- `reference_count` is a Rust `u32` and `total_size`/`compressed_size`
  accumulate in `u64`, so increments and sums are taken modulo `2^32`
  resp. `2^64`.
- `chrono::Utc::now()` is a clock input: `store_content` receives the
  current instant `now` and `store_page_fetch` the formatted current date.
- Rust panics (`.unwrap()`, out-of-bounds string slicing) are the `crash`
  outcome; fallible operations return an outcome constructor per error
  path.  Injected I/O faults (`Faults`) model the fallible filesystem calls
  of `store_content`.
-/

/-- Byte sequences (`Vec<u8>` / `&[u8]`). -/
abbrev Bytes := List Nat

/-- Rust strings, modelled as character lists. -/
abbrev Str := List Char

/-- Coerce a Lean string literal to the `Str` model. -/
def str (s : String) : Str := s.data

/-- Lowercase hex digit for a nibble, as produced by `hex::encode`. -/
def hexDigitChar (n : Nat) : Char :=
  if n < 10 then Char.ofNat (48 + n) else Char.ofNat (87 + n)

/-- Hex encoding of a byte sequence (`hex::encode`): two lowercase hex
characters per byte, high nibble first. -/
def hexEncode : Bytes → Str
  | [] => []
  | b :: t => hexDigitChar (b / 16) :: hexDigitChar (b % 16) :: hexEncode t

/-- The algorithm tag `compute_hash` prepends to the hex digest. -/
def sha256Tag : Str := str "sha256:"

/-- Model of `str::strip_prefix`: `some` of the remainder when `p` leads
`s`, otherwise `none`. -/
def stripTag? (p s : Str) : Option Str :=
  if p.isPrefixOf s then some (s.drop p.length) else none

/-- Decimal digits of a natural number (empty for 0). -/
def natDigits : Nat → Str
  | 0 => []
  | n + 1 => natDigits ((n + 1) / 10) ++ [hexDigitChar ((n + 1) % 10)]
decreasing_by exact Nat.div_lt_self (Nat.succ_pos n) (by omega)

/-- Decimal rendering of a natural number. -/
def natToStr (n : Nat) : Str := if n = 0 then str "0" else natDigits n

/-- Decimal rendering of an `i64` timestamp (`format!("{}", t)`). -/
def intToStr : Int → Str
  | Int.ofNat n => natToStr n
  | Int.negSucc m => str "-" ++ natToStr (m + 1)

/-- External-library parameters of the model: the SHA-256 digest (`sha2`),
Zstandard compression and decompression at the fixed level (`zstd`), and the
bloom filter's false-positive behaviour (`bloomfilter`), as a predicate of
the marked set and the queried identity. -/
structure Env where
  sha256digest : Bytes → Bytes
  encodeAll : Bytes → Bytes
  decodeAll : Bytes → Option Bytes
  bloomFp : List Str → Str → Bool

/-- Well-formedness of the environment: a SHA-256 digest is 32 bytes. -/
def wfEnv (env : Env) : Prop :=
  ∀ d : Bytes, (env.sha256digest d).length = 32

/-- Round-trip guarantee of the compression library: decompressing a
compressed payload yields the payload back. -/
def rtEnv (env : Env) : Prop :=
  ∀ b : Bytes, env.decodeAll (env.encodeAll b) = some b

/-- Model of `Storage::compute_hash`: `format!("sha256:{}", hex::encode(sha256(data)))`. -/
def compute_hash (env : Env) (data : Bytes) : Str :=
  sha256Tag ++ hexEncode (env.sha256digest data)

/-- Model of `ContentMetadata` (`first_seen` is an abstract instant). -/
structure ContentMetadata where
  size : Nat
  compressed_size : Nat
  content_type : Option Str
  first_seen : Nat
  reference_count : Nat
deriving DecidableEq, Repr

/-- Model of `ArchivedResponse`. -/
structure ArchivedResponse where
  status_code : Nat
  headers : List (Str × Str)
  body_hash : Option Str
  body_size : Option Nat
  body_type : Option Str
deriving DecidableEq, Repr

/-- Model of `ArchivedRequest`. -/
structure ArchivedRequest where
  request_id : Str
  timestamp : Int
  method : Str
  url : Str
  request_headers : List (Str × Str)
  request_body_hash : Option Str
  request_body_size : Option Nat
  response : Option ArchivedResponse
deriving DecidableEq, Repr

/-- Model of `PageFetchIndex`. -/
structure PageFetchIndex where
  session_id : Str
  page_url : Str
  timestamp : Int
  navigation_id : Str
  requests : List ArchivedRequest
  password_hashes : List Str
deriving DecidableEq, Repr

/-- A value stored in the sled metadata index: either a JSON-serialized
`ContentMetadata` (under a `sha256:` key) or a JSON-serialized path list
(under a `session:` key).  Deserializing one shape as the other fails. -/
inductive DbValue where
  | metaVal (m : ContentMetadata)
  | pathsVal (ps : List Str)
deriving DecidableEq, Repr

/-- A file on disk: either a compressed blob or a pretty-printed page-fetch
record. -/
inductive FileData where
  | blob (b : Bytes)
  | pageJson (pf : PageFetchIndex)
deriving DecidableEq, Repr

/-- Lookup in an association list (first entry with the key wins). -/
def alGet {β : Type} (l : List (Str × β)) (k : Str) : Option β :=
  match l with
  | [] => none
  | (k', v) :: t => if k' = k then some v else alGet t k

/-- Insert into an association list: replace the first entry with the key in
place, or append a fresh key at the end. -/
def alInsert {β : Type} (l : List (Str × β)) (k : Str) (v : β) : List (Str × β) :=
  match l with
  | [] => [(k, v)]
  | (k', v') :: t => if k' = k then (k, v) :: t else (k', v') :: alInsert t k v

/-- Model of `sled::Db::contains_key`. -/
def dbContains (l : List (Str × DbValue)) (k : Str) : Bool :=
  (alGet l k).isSome

/-- State of one `Storage` value plus the filesystem it owns.  `bloom` is
the set of identities actually marked via `Bloom::set`. -/
structure StorageState where
  base : Str
  db : List (Str × DbValue)
  bloom : List Str
  cache : List (Str × Bytes)
  disk : List (Str × FileData)
deriving Repr

/-- Model of `Bloom::check`: true for every marked identity (no false
negatives), and possibly true for unmarked ones (`bloomFp`). -/
def bloomCheck (env : Env) (marked : List Str) (h : Str) : Bool :=
  decide (h ∈ marked) || env.bloomFp marked h

/-- Model of `Bloom::set`. -/
def bloomMark (marked : List Str) (h : Str) : List Str :=
  if h ∈ marked then marked else h :: marked

/-- Model of `Storage::get_content_path`: `<base>/content/<hash[..2]>/<hash[2..4]>/<hash>.zst`.
Returns `none` when the slicing `&hash[..2]` / `&hash[2..4]` would panic
(identity shorter than 4 characters). -/
def get_content_path (base : Str) (hash : Str) : Option Str :=
  if 4 ≤ hash.length then
    some (base ++ str "/content/" ++ hash.take 2 ++ str "/" ++
      (hash.drop 2).take 2 ++ str "/" ++ hash ++ str ".zst")
  else none

/-- Model of `Storage::increment_ref_count`.  The `if let Ok(Some(_))`
falls through silently when the key is absent; a value of the wrong shape
fails JSON deserialization (`serde_json::from_slice::<ContentMetadata>`);
the `u32` reference count wraps modulo `2^32`. -/
def increment_ref_count (db : List (Str × DbValue)) (hash : Str) :
    Except Unit (List (Str × DbValue)) :=
  match alGet db hash with
  | some (DbValue.metaVal m) =>
      Except.ok (alInsert db hash (DbValue.metaVal
        { m with reference_count := (m.reference_count + 1) % 4294967296 }))
  | some (DbValue.pathsVal _) => Except.error ()
  | none => Except.ok db

/-- Injected I/O faults for the fallible filesystem steps of
`store_content`: zstd `encode_all`, `create_dir_all`, the blob
`File::create`/`write_all`, and `sync_all`. -/
structure Faults where
  compress_fail : Bool
  mkdir_fail : Bool
  write_fail : Bool
  sync_fail : Bool
deriving DecidableEq, Repr

/-- No injected faults: every I/O step succeeds. -/
def noFaults : Faults := ⟨false, false, false, false⟩

/-- Outcome of `store_content`: the returned identity, a surfaced error, or
a Rust panic. -/
inductive StoreOutcome where
  | ok (id : Str)
  | err
  | crash
deriving DecidableEq, Repr

/-- Model of `Storage::store_content`, line by line: compute the identity;
if the bloom filter says maybe-present and the db confirms, increment the
reference count and return early; otherwise compress, create directories,
write and fsync the blob, insert a fresh metadata record with
`reference_count` 1, mark the bloom filter, and insert small payloads into
the hot cache, evicting the first iterated entry when the cache exceeds
`CACHE_SIZE = 1000`. -/
def store_content (env : Env) (fl : Faults) (now : Nat) (s : StorageState)
    (data : Bytes) : StoreOutcome × StorageState :=
  let hash := compute_hash env data
  match stripTag? sha256Tag hash with
  | none => (StoreOutcome.crash, s)
  | some hash_only =>
    if bloomCheck env s.bloom hash && dbContains s.db hash then
      match increment_ref_count s.db hash with
      | Except.ok db' => (StoreOutcome.ok hash, { s with db := db' })
      | Except.error _ => (StoreOutcome.err, s)
    else
      if fl.compress_fail then (StoreOutcome.err, s) else
      let compressed := env.encodeAll data
      match get_content_path s.base hash_only with
      | none => (StoreOutcome.crash, s)
      | some content_path =>
        if fl.mkdir_fail then (StoreOutcome.err, s) else
        if fl.write_fail then
          -- File::create truncated the file before write_all failed
          (StoreOutcome.err, { s with disk := alInsert s.disk content_path (FileData.blob []) })
        else
          let disk' := alInsert s.disk content_path (FileData.blob compressed)
          if fl.sync_fail then (StoreOutcome.err, { s with disk := disk' }) else
          let metadata : ContentMetadata :=
            ⟨data.length, compressed.length, none, now, 1⟩
          let db' := alInsert s.db hash (DbValue.metaVal metadata)
          let bloom' := bloomMark s.bloom hash
          let cache' :=
            if data.length < 1000000 then
              let c := alInsert s.cache hash data
              if 1000 < c.length then c.tail else c
            else s.cache
          (StoreOutcome.ok hash,
            { s with db := db', bloom := bloom', disk := disk', cache := cache' })

/-- Outcome of `retrieve_content`. -/
inductive RetrieveOutcome where
  | ok (b : Bytes)
  | notFound
  | err
  | crash
deriving DecidableEq, Repr

/-- Model of `Storage::retrieve_content`: hot-cache lookup first; then
strip an optional `sha256:` tag, derive the blob path (panicking on
identities too short to slice), check existence, decompress, and cache
small results under the caller's original identity string. -/
def retrieve_content (env : Env) (s : StorageState) (hash : Str) :
    RetrieveOutcome × StorageState :=
  match alGet s.cache hash with
  | some cached => (RetrieveOutcome.ok cached, s)
  | none =>
    let hash_only := (stripTag? sha256Tag hash).getD hash
    match get_content_path s.base hash_only with
    | none => (RetrieveOutcome.crash, s)
    | some content_path =>
      match alGet s.disk content_path with
      | none => (RetrieveOutcome.notFound, s)
      | some (FileData.pageJson _) => (RetrieveOutcome.err, s)
      | some (FileData.blob compressed) =>
        match env.decodeAll compressed with
        | none => (RetrieveOutcome.err, s)
        | some decompressed =>
          let s' :=
            if decompressed.length < 1000000 then
              { s with cache := alInsert s.cache hash decompressed }
            else s
          (RetrieveOutcome.ok decompressed, s')

/-- Outcome of `store_page_fetch`. -/
inductive IndexOutcome where
  | ok (path : Str)
  | err
  | crash
deriving DecidableEq, Repr

/-- Model of `Storage::store_page_fetch`: hash the page URL, build
`<base>/sessions/<date>/<session_id>/<timestamp>_<hash[..8]>.json`, write
the pretty-printed record there, then read-modify-write the session's path
list in the metadata index.  The `&page_hash_only[..8]` slice panics on a
digest shorter than 8 hex characters. -/
def store_page_fetch (env : Env) (date : Str) (s : StorageState)
    (session_id : Str) (pf : PageFetchIndex) : IndexOutcome × StorageState :=
  let page_hash := compute_hash env (pf.page_url.map Char.toNat)
  match stripTag? sha256Tag page_hash with
  | none => (IndexOutcome.crash, s)
  | some page_hash_only =>
    if page_hash_only.length < 8 then (IndexOutcome.crash, s) else
    let filename := intToStr pf.timestamp ++ str "_" ++ page_hash_only.take 8 ++ str ".json"
    let path := s.base ++ str "/sessions/" ++ date ++ str "/" ++ session_id ++
      str "/" ++ filename
    let disk' := alInsert s.disk path (FileData.pageJson pf)
    let session_key := str "session:" ++ session_id
    match alGet s.db session_key with
    | some (DbValue.metaVal _) =>
        -- serde_json::from_slice::<Vec<String>> fails; `?` propagates after the file write
        (IndexOutcome.err, { s with disk := disk' })
    | some (DbValue.pathsVal ps) =>
        (IndexOutcome.ok path,
          { s with disk := disk',
                   db := alInsert s.db session_key (DbValue.pathsVal (ps ++ [path])) })
    | none =>
        (IndexOutcome.ok path,
          { s with disk := disk',
                   db := alInsert s.db session_key (DbValue.pathsVal [path]) })

/-- Modulus of the `u64` accumulators in `get_stats`. -/
def U64 : Nat := 18446744073709551616

/-- The `get_stats` iteration: sum `size` and `compressed_size` over every
db value that deserializes as `ContentMetadata`, with wrapping `u64`
addition; session path lists fail deserialization and are skipped. -/
def sumSizes : List (Str × DbValue) → Nat × Nat
  | [] => (0, 0)
  | (_, DbValue.metaVal m) :: t =>
      let r := sumSizes t
      ((r.1 + m.size) % U64, (r.2 + m.compressed_size) % U64)
  | (_, DbValue.pathsVal _) :: t => sumSizes t

/-- Model of `StorageStats`.  `compression_ratio` is an `f64` in the
source; the model computes the exact rational value of
`compressed_size as f64 / total_size as f64`. -/
structure StorageStats where
  content_count : Nat
  cache_size : Nat
  total_size : Nat
  compressed_size : Nat
  compressionRatioQ : ℚ
deriving DecidableEq, Repr

/-- Model of `Storage::get_stats`: `content_count` is `content_db.len()`
(every key of the index, including `session:` keys), `cache_size` the hot
cache entry count, the sizes the wrapping sums over metadata records, and
the ratio `compressed / total`, `1.0` when `total` is zero. -/
def get_stats (s : StorageState) : StorageStats :=
  let sums := sumSizes s.db
  { content_count := s.db.length
    cache_size := s.cache.length
    total_size := sums.1
    compressed_size := sums.2
    compressionRatioQ := if 0 < sums.1 then (sums.2 : ℚ) / (sums.1 : ℚ) else 1 }

/-- State of a freshly created `Storage` (`Storage::new`): empty metadata
index, bloom filter rebuilt empty (`load_or_create_bloom` never loads),
empty cache, no blobs. -/
def initState (base : Str) : StorageState :=
  { base := base, db := [], bloom := [], cache := [], disk := [] }

/-- Iterate `store_content` (no faults) `n` times on the same payload. -/
def storeTimes (env : Env) (now : Nat) (b : Bytes) (s : StorageState) : Nat → StorageState
  | 0 => s
  | n + 1 => (store_content env noFaults now (storeTimes env now b s n) b).2

/-- Plain (non-wrapping) sum of `size` over metadata records. -/
def metaSizeSum : List (Str × DbValue) → Nat
  | [] => 0
  | (_, DbValue.metaVal m) :: t => m.size + metaSizeSum t
  | (_, DbValue.pathsVal _) :: t => metaSizeSum t

/-- Plain (non-wrapping) sum of `compressed_size` over metadata records. -/
def metaCompSum : List (Str × DbValue) → Nat
  | [] => 0
  | (_, DbValue.metaVal m) :: t => m.compressed_size + metaCompSum t
  | (_, DbValue.pathsVal _) :: t => metaCompSum t

/-- Number of content-metadata records in the index. -/
def countMeta : List (Str × DbValue) → Nat
  | [] => 0
  | (_, DbValue.metaVal _) :: t => countMeta t + 1
  | (_, DbValue.pathsVal _) :: t => countMeta t

/-- Number of session path-list records in the index. -/
def countPaths : List (Str × DbValue) → Nat
  | [] => 0
  | (_, DbValue.metaVal _) :: t => countPaths t
  | (_, DbValue.pathsVal _) :: t => countPaths t + 1

/-- The session path list currently recorded for a session. -/
def sessionPaths (s : StorageState) (session_id : Str) : List Str :=
  match alGet s.db (str "session:" ++ session_id) with
  | some (DbValue.pathsVal ps) => ps
  | _ => []

/-- Hex digest part of a content identity. -/
def hashHexOf (env : Env) (data : Bytes) : Str := hexEncode (env.sha256digest data)

/-- The sharded blob path as an explicit string. -/
def contentPathOf (base : Str) (h : Str) : Str :=
  base ++ str "/content/" ++ h.take 2 ++ str "/" ++
    (h.drop 2).take 2 ++ str "/" ++ h ++ str ".zst"

/-- The path `store_page_fetch` builds for a record. -/
def pfPath (env : Env) (date base session_id : Str) (pf : PageFetchIndex) : Str :=
  base ++ str "/sessions/" ++ date ++ str "/" ++ session_id ++ str "/" ++
    (intToStr pf.timestamp ++ str "_" ++
      (hashHexOf env (pf.page_url.map Char.toNat)).take 8 ++ str ".json")

/-- Reference count currently recorded for an identity, when its record
deserializes as metadata. -/
def refCountAt (s : StorageState) (k : Str) : Option Nat :=
  match alGet s.db k with
  | some (DbValue.metaVal m) => some m.reference_count
  | _ => none

/-- State reached by `N` repeated stores of the same payload from a fresh
storage: one blob, one metadata record with the given reference count, the
identity bloom-marked, and the payload cached when small. -/
def oneStoreState (env : Env) (now : Nat) (base : Str) (b : Bytes) (rc : Nat) : StorageState :=
  { base := base
    db := [(compute_hash env b,
      DbValue.metaVal ⟨b.length, (env.encodeAll b).length, none, now, rc⟩)]
    bloom := [compute_hash env b]
    cache := if b.length < 1000000 then [(compute_hash env b, b)] else []
    disk := [(contentPathOf base (hashHexOf env b), FileData.blob (env.encodeAll b))] }

/-- Fold a list of payloads through `store_content`. -/
def foldStores (env : Env) (now : Nat) (s : StorageState) (bs : List Bytes) : StorageState :=
  bs.foldl (fun st b => (store_content env noFaults now st b).2) s

/-- Concrete environment for witnesses and counterexamples: the digest
truncates or zero-pads its input to 32 bytes, compression is the identity,
and the bloom filter produces no false positives. -/
def env0 : Env where
  sha256digest := fun d => (d ++ List.replicate 32 0).take 32
  encodeAll := fun b => b
  decodeAll := fun b => some b
  bloomFp := fun _ _ => false

/-- Family of distinct two-byte payloads (distinct for indices below 65536). -/
def pay (i : Nat) : Bytes := [i / 256, i % 256]

/-- Content identity of `pay i` under `env0`. -/
def idOf (i : Nat) : Str := compute_hash env0 (pay i)

/-- Blob path of `pay i` under `env0` with base path `""`. -/
def cpathOf (i : Nat) : Str := contentPathOf [] (hashHexOf env0 (pay i))

/-- State reached after storing `pay 0, …, pay (k-1)` from a fresh storage
with base path `""` under `env0`: all `k` records, blobs and bloom marks,
and the cache holding every payload while `k ≤ 1000` and all but the first
(evicted) payload at `k = 1001`. -/
def stateK (k : Nat) : StorageState :=
  { base := []
    db := (List.range k).map (fun i => (idOf i, DbValue.metaVal ⟨2, 2, none, 0, 1⟩))
    bloom := ((List.range k).map idOf).reverse
    cache :=
      if k ≤ 1000 then (List.range k).map (fun i => (idOf i, pay i))
      else ((List.range k).map (fun i => (idOf i, pay i))).tail
    disk := (List.range k).map (fun i => (cpathOf i, FileData.blob (pay i))) }

/-- Sequence of `k` stores of the distinct payloads `pay 0, …, pay (k-1)`
from a fresh storage under `env0`. -/
def storeSeq : Nat → StorageState
  | 0 => initState []
  | k + 1 => (store_content env0 noFaults 0 (storeSeq k) (pay k)).2

/-- Post-restart state for the C4 counterexample: the metadata index holds
the record for `pay 0` with reference count 5 and its blob is on disk, but
the bloom filter is freshly rebuilt (empty). -/
def s4 : StorageState :=
  { base := []
    db := [(idOf 0, DbValue.metaVal ⟨2, 2, none, 0, 5⟩)]
    bloom := []
    cache := []
    disk := [(cpathOf 0, FileData.blob (pay 0))] }

/-- State for the C5 counterexample: one stored payload and one recorded
page fetch. -/
def s5 : StorageState :=
  (store_page_fetch env0 (str "2026-10-12")
    (store_content env0 noFaults 0 (initState []) [7]).2 (str "s1")
    ⟨str "s1", str "u", 5, str "n", [], []⟩).2

/-! ### Basic lemmas about the embedded operations -/

theorem hexEncode_length (b : Bytes) : (hexEncode b).length = 2 * b.length := by
  induction b with
  | nil => rfl
  | cons x t ih => simp [hexEncode, ih]; omega

theorem stripTag?_append (p x : Str) : stripTag? p (p ++ x) = some x := by
  unfold stripTag?
  rw [if_pos (by rw [ List.isPrefixOf_iff_prefix]; exact List.prefix_append p x)]
  rw [List.drop_left]

theorem compute_hash_eq (env : Env) (data : Bytes) :
    compute_hash env data = sha256Tag ++ hashHexOf env data := rfl

theorem hashHexOf_length (env : Env) (hwf : wfEnv env) (data : Bytes) :
    (hashHexOf env data).length = 64 := by
  rw [hashHexOf, hexEncode_length, hwf data]

theorem get_content_path_of_len (base h : Str) (hl : 4 ≤ h.length) :
    get_content_path base h = some (contentPathOf base h) := by
  rw [get_content_path, if_pos hl]; rfl

theorem alGet_alInsert_self {β : Type} (l : List (Str × β)) (k : Str) (v : β) :
    alGet (alInsert l k v) k = some v := by
  induction l with
  | nil => simp [alInsert, alGet]
  | cons hd t ih =>
    obtain ⟨k', v'⟩ := hd
    by_cases h : k' = k <;> simp [alInsert, alGet, h, ih]

theorem alGet_alInsert_ne {β : Type} (l : List (Str × β)) (k k' : Str) (v : β)
    (h : k ≠ k') : alGet (alInsert l k v) k' = alGet l k' := by
  induction l with
  | nil => simp [alInsert, alGet, h]
  | cons hd t ih =>
    obtain ⟨k0, v0⟩ := hd
    by_cases h0 : k0 = k
    · subst h0; simp [alInsert, alGet, h]
    · simp only [alInsert, if_neg h0]
      by_cases h1 : k0 = k' <;> simp [alGet, h1, ih]

theorem length_alInsert_le {β : Type} (l : List (Str × β)) (k : Str) (v : β) :
    (alInsert l k v).length ≤ l.length + 1 := by
  induction l with
  | nil => simp [alInsert]
  | cons hd t ih =>
    obtain ⟨k', v'⟩ := hd
    by_cases h : k' = k
    · simp [alInsert, h]
    · simp only [alInsert, if_neg h, List.length_cons]
      omega

theorem alInsert_of_get_none {β : Type} (l : List (Str × β)) (k : Str) (v : β)
    (h : alGet l k = none) : alInsert l k v = l ++ [(k, v)] := by
  induction l with
  | nil => simp [alInsert]
  | cons hd t ih =>
    obtain ⟨k', v'⟩ := hd
    by_cases h0 : k' = k
    · simp [alGet, h0] at h
    · simp only [alGet, if_neg h0] at h
      simp [alInsert, h0, ih h]

theorem alGet_none_of_not_mem_keys {β : Type} (l : List (Str × β)) (k : Str)
    (h : k ∉ l.map Prod.fst) : alGet l k = none := by
  induction l with
  | nil => rfl
  | cons hd t ih =>
    obtain ⟨k', v'⟩ := hd
    simp only [List.map_cons, List.mem_cons] at h
    push_neg at h
    simp [alGet, h.1.symm, ih h.2]

theorem length_alInsert_of_get_some {β : Type} (l : List (Str × β)) (k : Str)
    (v w : β) (h : alGet l k = some w) : (alInsert l k v).length = l.length := by
  induction l with
  | nil => simp [alGet] at h
  | cons hd t ih =>
    obtain ⟨k', v'⟩ := hd
    by_cases h0 : k' = k
    · simp [alInsert, h0]
    · simp only [alGet, if_neg h0] at h
      simp [alInsert, h0, ih h]

/-- Characterization of the duplicate fast path of `store_content`: when the
bloom filter reports maybe-present and the index holds a metadata record for
the identity, the call only bumps (modulo `2^32`) the reference count. -/
theorem store_content_dup (env : Env) (fl : Faults) (now : Nat) (s : StorageState)
    (data : Bytes) (m : ContentMetadata)
    (hc : bloomCheck env s.bloom (compute_hash env data) = true)
    (hm : alGet s.db (compute_hash env data) = some (DbValue.metaVal m)) :
    store_content env fl now s data =
      (StoreOutcome.ok (compute_hash env data),
       { s with db := alInsert s.db (compute_hash env data) (DbValue.metaVal
           { m with reference_count := (m.reference_count + 1) % 4294967296 }) }) := by
  simp only [compute_hash, hashHexOf] at hc hm ⊢
  simp only [store_content, compute_hash, stripTag?_append, hc, dbContains, hm,
    Option.isSome_some, Bool.true_and, if_true, increment_ref_count]

/-- Characterization of the fresh path of `store_content` without injected
faults: when either the bloom filter or the index misses, the payload is
compressed, written, recorded with reference count 1, marked, and cached if
small. -/
theorem store_content_fresh (env : Env) (now : Nat) (s : StorageState)
    (data : Bytes) (hwf : wfEnv env)
    (hdup : (bloomCheck env s.bloom (compute_hash env data) &&
      dbContains s.db (compute_hash env data)) = false) :
    store_content env noFaults now s data =
      (StoreOutcome.ok (compute_hash env data),
       { s with
          db := alInsert s.db (compute_hash env data)
            (DbValue.metaVal ⟨data.length, (env.encodeAll data).length, none, now, 1⟩),
          bloom := bloomMark s.bloom (compute_hash env data),
          disk := alInsert s.disk (contentPathOf s.base (hashHexOf env data))
            (FileData.blob (env.encodeAll data)),
          cache :=
            if data.length < 1000000 then
              if 1000 < (alInsert s.cache (compute_hash env data) data).length then
                (alInsert s.cache (compute_hash env data) data).tail
              else alInsert s.cache (compute_hash env data) data
            else s.cache }) := by
  have hp := get_content_path_of_len s.base (hexEncode (env.sha256digest data))
    (by rw [hexEncode_length, hwf data]; omega)
  simp only [compute_hash, hashHexOf, contentPathOf] at hdup hp ⊢
  simp only [store_content, compute_hash, stripTag?_append, hdup, Bool.false_eq_true,
    if_false, noFaults, hp, contentPathOf]

theorem env0_wf : wfEnv env0 := by
  intro d
  simp only [env0, List.length_take, List.length_append, List.length_replicate]
  omega

theorem env0_rt : rtEnv env0 := fun _ => rfl

theorem sumSizes_eq (l : List (Str × DbValue)) :
    sumSizes l = (metaSizeSum l % U64, metaCompSum l % U64) := by
  induction l with
  | nil => rfl
  | cons hd t ih =>
    obtain ⟨k, v⟩ := hd
    cases v with
    | metaVal m =>
        simp only [sumSizes, metaSizeSum, metaCompSum, ih, Prod.mk.injEq]
        constructor
        · rw [Nat.mod_add_mod, Nat.add_comm]
        · rw [Nat.mod_add_mod, Nat.add_comm]
    | pathsVal ps => simp only [sumSizes, metaSizeSum, metaCompSum, ih]

theorem countMeta_add_countPaths (l : List (Str × DbValue)) :
    countMeta l + countPaths l = l.length := by
  induction l with
  | nil => rfl
  | cons hd t ih =>
    obtain ⟨k, v⟩ := hd
    cases v <;> simp only [countMeta, countPaths, List.length_cons] <;> omega

theorem store_cache_bound (env : Env) (fl : Faults) (now : Nat) (s : StorageState)
    (data : Bytes) (h : s.cache.length ≤ 1000) :
    (store_content env fl now s data).2.cache.length ≤ 1000 := by
  have hst : stripTag? sha256Tag (compute_hash env data) =
      some (hexEncode (env.sha256digest data)) := by
    rw [compute_hash]; exact stripTag?_append _ _
  by_cases hdup : (bloomCheck env s.bloom (compute_hash env data) &&
      dbContains s.db (compute_hash env data)) = true
  · cases hinc : increment_ref_count s.db (compute_hash env data) with
    | ok db' => simp only [store_content, hst, hdup, if_true, hinc]; exact h
    | error e => simp only [store_content, hst, hdup, if_true, hinc]; exact h
  · simp only [Bool.not_eq_true] at hdup
    simp only [store_content, hst, hdup, Bool.false_eq_true, if_false]
    split
    · exact h
    · split
      · exact h
      · split
        · exact h
        · split
          · exact h
          · split
            · exact h
            · split
              · split
                · simp only [List.length_tail]
                  have hlen := length_alInsert_le s.cache (compute_hash env data) data
                  omega
                · rename_i hle
                  dsimp only
                  omega
              · exact h

/-! ### Claim theorems -/

/-- C2: for every non-empty byte sequence `b`, `retrieve(store(b))` returns
exactly `b` on a fresh storage — small payloads are served from the hot
cache, and payloads of 1,000,000 bytes or more bypass the hot cache (the
cache stays empty) and round-trip through compression and decompression
alone. -/
theorem C2_round_trip (env : Env) (base : Str) (now : Nat) (b : Bytes)
    (hwf : wfEnv env) (hrt : rtEnv env) (_hne : b ≠ []) :
    (store_content env noFaults now (initState base) b).1 =
      StoreOutcome.ok (compute_hash env b) ∧
    (retrieve_content env (store_content env noFaults now (initState base) b).2
      (compute_hash env b)).1 = RetrieveOutcome.ok b ∧
    (1000000 ≤ b.length →
      (store_content env noFaults now (initState base) b).2.cache = []) := by
  have hdup : (bloomCheck env (initState base).bloom (compute_hash env b) &&
      dbContains (initState base).db (compute_hash env b)) = false := by
    simp [initState, dbContains, alGet]
  rw [store_content_fresh env now (initState base) b hwf hdup]
  have hst : stripTag? sha256Tag (compute_hash env b) =
      some (hexEncode (env.sha256digest b)) := by
    rw [compute_hash]; exact stripTag?_append _ _
  have hp := get_content_path_of_len base (hexEncode (env.sha256digest b))
    (by rw [hexEncode_length, hwf b]; omega)
  refine ⟨rfl, ?_, ?_⟩
  · by_cases hb : b.length < 1000000
    · simp [retrieve_content, initState, alInsert, alGet, hb]
    · simp only [initState, alInsert, List.length_cons, List.length_nil] at *
      simp only [retrieve_content, hb, if_false]
      simp only [alGet, hst, Option.getD_some, hashHexOf, hp, contentPathOf]
      simp [hrt b, hb]
  · intro hlarge
    have hb : ¬ b.length < 1000000 := by omega
    simp [initState, hb]

/-- Witness for C2 at the concrete payload `[7]` under `env0`. -/
theorem C2_round_trip_witness :
    wfEnv env0 ∧ rtEnv env0 ∧ ([7] : Bytes) ≠ [] ∧
    (retrieve_content env0 (store_content env0 noFaults 0 (initState []) [7]).2
      (compute_hash env0 [7])).1 = RetrieveOutcome.ok [7] :=
  ⟨env0_wf, env0_rt, by decide,
    (C2_round_trip env0 [] 0 [7] env0_wf env0_rt (by decide)).2.1⟩

/-- C3: if `store_content` fails at compression, directory creation, the
blob write, or the fsync (on the non-duplicate path, where those steps
run), it returns an error and leaves both the bloom filter and the metadata
index exactly as they were — identities are marked and records inserted
only after the blob write and fsync have succeeded. -/
theorem C3_store_failure_keeps_index_and_bloom (env : Env) (fl : Faults) (now : Nat)
    (s : StorageState) (data : Bytes) (hwf : wfEnv env)
    (hfresh : (bloomCheck env s.bloom (compute_hash env data) &&
      dbContains s.db (compute_hash env data)) = false)
    (hfault : fl.compress_fail = true ∨ fl.mkdir_fail = true ∨
      fl.write_fail = true ∨ fl.sync_fail = true) :
    (store_content env fl now s data).1 = StoreOutcome.err ∧
    (store_content env fl now s data).2.bloom = s.bloom ∧
    (store_content env fl now s data).2.db = s.db := by
  have hst : stripTag? sha256Tag (compute_hash env data) =
      some (hexEncode (env.sha256digest data)) := by
    rw [compute_hash]; exact stripTag?_append _ _
  have hp := get_content_path_of_len s.base (hexEncode (env.sha256digest data))
    (by rw [hexEncode_length, hwf data]; omega)
  by_cases h1 : fl.compress_fail = true
  · simp [store_content, hst, hfresh, h1]
  · simp only [Bool.not_eq_true] at h1
    by_cases h2 : fl.mkdir_fail = true
    · simp [store_content, hst, hfresh, h1, hp, h2]
    · simp only [Bool.not_eq_true] at h2
      by_cases h3 : fl.write_fail = true
      · simp [store_content, hst, hfresh, h1, hp, h2, h3]
      · simp only [Bool.not_eq_true] at h3
        have h4 : fl.sync_fail = true := by
          rcases hfault with h | h | h | h <;> simp_all
        simp [store_content, hst, hfresh, h1, hp, h2, h3, h4]

/-- Witness for C3: an injected compression failure on a fresh storage
errors out and leaves the (empty) bloom filter and index untouched. -/
theorem C3_store_failure_keeps_index_and_bloom_witness :
    (store_content env0 ⟨true, false, false, false⟩ 0 (initState []) [7]).1 =
      StoreOutcome.err ∧
    (store_content env0 ⟨true, false, false, false⟩ 0 (initState []) [7]).2.bloom = [] ∧
    (store_content env0 ⟨true, false, false, false⟩ 0 (initState []) [7]).2.db = [] :=
  C3_store_failure_keeps_index_and_bloom env0 ⟨true, false, false, false⟩ 0
    (initState []) [7] env0_wf (by decide) (Or.inl rfl)

/-- C10: for any identity string whose length after stripping an optional
`sha256:` tag is less than 4 characters and which is not in the hot cache,
`retrieve_content` panics on the out-of-bounds string slice inside
`get_content_path` instead of returning a not-found error. -/
theorem C10_short_identity_crash (env : Env) (s : StorageState) (id : Str)
    (hcache : alGet s.cache id = none)
    (hshort : ((stripTag? sha256Tag id).getD id).length < 4) :
    retrieve_content env s id = (RetrieveOutcome.crash, s) := by
  have hpath : get_content_path s.base ((stripTag? sha256Tag id).getD id) = none := by
    rw [get_content_path, if_neg (by omega)]
  simp only [retrieve_content, hcache, hpath]

/-- Witness for C10: retrieving the two-character identity `"ab"` on a
fresh storage crashes. -/
theorem C10_short_identity_crash_witness :
    retrieve_content env0 (initState []) (str "ab") =
      (RetrieveOutcome.crash, initState []) :=
  C10_short_identity_crash env0 (initState []) (str "ab") (by decide) (by decide)

/-- C7: retrieving a well-formed identity (`sha256:` plus a 64-character
digest) that was never stored — absent from the hot cache and with no blob
at the derived path — returns the not-found error and leaves the state
unchanged, for every bloom filter state: the read path consults only the
cache and the filesystem. -/
theorem C7_retrieve_not_found (env : Env) (s : StorageState) (bl : List Str)
    (h64 : Str) (hlen : h64.length = 64)
    (hcache : alGet s.cache (sha256Tag ++ h64) = none)
    (hdisk : alGet s.disk (contentPathOf s.base h64) = none) :
    retrieve_content env { s with bloom := bl } (sha256Tag ++ h64) =
      (RetrieveOutcome.notFound, { s with bloom := bl }) := by
  have hp := get_content_path_of_len s.base h64 (by omega)
  simp only [retrieve_content, hcache, stripTag?_append, Option.getD_some, hp, hdisk]

/-- Witness for C7: a never-stored all-`a` identity on a fresh storage with
a nonempty bloom filter returns not-found. -/
theorem C7_retrieve_not_found_witness :
    retrieve_content env0 { initState [] with bloom := [str "x"] }
      (sha256Tag ++ List.replicate 64 'a') =
      (RetrieveOutcome.notFound, { initState [] with bloom := [str "x"] }) :=
  C7_retrieve_not_found env0 (initState []) [str "x"] (List.replicate 64 'a')
    (by decide) (by decide) (by decide)

/-- C8: a store on the non-duplicate path writes the blob at the
deterministic sharded path — base, then `content`, then the first two hex
characters of the digest, then the next two, then the full digest with
extension `.zst` — and the retrieve path derives exactly the same path from
the returned identity. -/
theorem C8_deterministic_path (env : Env) (now : Nat) (s : StorageState) (b : Bytes)
    (hwf : wfEnv env)
    (hfresh : (bloomCheck env s.bloom (compute_hash env b) &&
      dbContains s.db (compute_hash env b)) = false) :
    (store_content env noFaults now s b).1 =
      StoreOutcome.ok (sha256Tag ++ hashHexOf env b) ∧
    alGet (store_content env noFaults now s b).2.disk
      (s.base ++ str "/content/" ++ (hashHexOf env b).take 2 ++ str "/" ++
        ((hashHexOf env b).drop 2).take 2 ++ str "/" ++ hashHexOf env b ++ str ".zst") =
      some (FileData.blob (env.encodeAll b)) ∧
    get_content_path s.base
      ((stripTag? sha256Tag (sha256Tag ++ hashHexOf env b)).getD
        (sha256Tag ++ hashHexOf env b)) =
      some (s.base ++ str "/content/" ++ (hashHexOf env b).take 2 ++ str "/" ++
        ((hashHexOf env b).drop 2).take 2 ++ str "/" ++ hashHexOf env b ++ str ".zst") := by
  rw [store_content_fresh env now s b hwf hfresh]
  refine ⟨rfl, ?_, ?_⟩
  · exact alGet_alInsert_self s.disk (contentPathOf s.base (hashHexOf env b))
      (FileData.blob (env.encodeAll b))
  · rw [stripTag?_append, Option.getD_some]
    exact get_content_path_of_len s.base (hashHexOf env b)
      (by rw [hashHexOf_length env hwf b]; omega)

/-- Witness for C8 at the concrete payload `[7]` on a fresh storage. -/
theorem C8_deterministic_path_witness :
    (store_content env0 noFaults 0 (initState []) [7]).1 =
      StoreOutcome.ok (sha256Tag ++ hashHexOf env0 [7]) ∧
    alGet (store_content env0 noFaults 0 (initState []) [7]).2.disk
      (([] : Str) ++ str "/content/" ++ (hashHexOf env0 [7]).take 2 ++ str "/" ++
        ((hashHexOf env0 [7]).drop 2).take 2 ++ str "/" ++ hashHexOf env0 [7] ++ str ".zst") =
      some (FileData.blob (env0.encodeAll [7])) :=
  ⟨(C8_deterministic_path env0 0 (initState []) [7] env0_wf (by decide)).1,
   (C8_deterministic_path env0 0 (initState []) [7] env0_wf (by decide)).2.1⟩

/-- C9: a successful `store_page_fetch` returns the path built from the
current date, the session identifier, the record's timestamp, and the first
8 hex characters of the page-URL hash; it writes the record at exactly that
path and appends exactly that one path to the session's list in the
metadata index (so under sequential calls the list is append-only). -/
theorem C9_page_fetch_append (env : Env) (date : Str) (s : StorageState)
    (sid : Str) (pf : PageFetchIndex) (hwf : wfEnv env)
    (hnometa : ∀ m, alGet s.db (str "session:" ++ sid) ≠ some (DbValue.metaVal m)) :
    (store_page_fetch env date s sid pf).1 =
      IndexOutcome.ok (pfPath env date s.base sid pf) ∧
    alGet (store_page_fetch env date s sid pf).2.disk (pfPath env date s.base sid pf) =
      some (FileData.pageJson pf) ∧
    sessionPaths (store_page_fetch env date s sid pf).2 sid =
      sessionPaths s sid ++ [pfPath env date s.base sid pf] := by
  have hst : stripTag? sha256Tag (compute_hash env (pf.page_url.map Char.toNat)) =
      some (hashHexOf env (pf.page_url.map Char.toNat)) := by
    rw [compute_hash]; exact stripTag?_append _ _
  have hlen8 : ¬ (hashHexOf env (pf.page_url.map Char.toNat)).length < 8 := by
    rw [hashHexOf_length env hwf]; omega
  cases hget : alGet s.db (str "session:" ++ sid) with
  | none =>
      simp only [store_page_fetch, hst, hlen8, if_false, hget]
      refine ⟨rfl, ?_, ?_⟩
      · exact alGet_alInsert_self s.disk (pfPath env date s.base sid pf) (FileData.pageJson pf)
      · simp [sessionPaths, hget, alGet_alInsert_self, pfPath]
  | some v =>
      cases v with
      | metaVal m => exact absurd hget (hnometa m)
      | pathsVal ps =>
          simp only [store_page_fetch, hst, hlen8, if_false, hget]
          refine ⟨rfl, ?_, ?_⟩
          · exact alGet_alInsert_self s.disk (pfPath env date s.base sid pf)
              (FileData.pageJson pf)
          · simp [sessionPaths, hget, alGet_alInsert_self, pfPath]

/-- Witness for C9 at a concrete record on a fresh storage. -/
theorem C9_page_fetch_append_witness :
    (store_page_fetch env0 (str "2026-10-12") (initState []) (str "s1")
      ⟨str "s1", str "u", 5, str "n", [], []⟩).1 =
      IndexOutcome.ok (pfPath env0 (str "2026-10-12") [] (str "s1")
        ⟨str "s1", str "u", 5, str "n", [], []⟩) ∧
    sessionPaths (store_page_fetch env0 (str "2026-10-12") (initState []) (str "s1")
      ⟨str "s1", str "u", 5, str "n", [], []⟩).2 (str "s1") =
      [] ++ [pfPath env0 (str "2026-10-12") [] (str "s1")
        ⟨str "s1", str "u", 5, str "n", [], []⟩] :=
  ⟨(C9_page_fetch_append env0 (str "2026-10-12") (initState []) (str "s1")
      ⟨str "s1", str "u", 5, str "n", [], []⟩ env0_wf (by simp [initState, alGet])).1,
   (C9_page_fetch_append env0 (str "2026-10-12") (initState []) (str "s1")
      ⟨str "s1", str "u", 5, str "n", [], []⟩ env0_wf (by simp [initState, alGet])).2.2⟩

/-- C4 (amended): when an identity is present in the metadata index but the
bloom filter reports absent (no mark, no false positive) — the state after
a process restart — `store_content` does not consult the index: it takes
the full store path, rewrites the blob, and replaces the metadata record
with a fresh one whose reference count is 1.  The index is re-checked only
when the filter reports maybe-present. -/
theorem C4_restart_resets_record (env : Env) (now : Nat) (s : StorageState)
    (b : Bytes) (m : ContentMetadata) (hwf : wfEnv env)
    (_hdb : alGet s.db (compute_hash env b) = some (DbValue.metaVal m))
    (hbloom : compute_hash env b ∉ s.bloom)
    (hfp : env.bloomFp s.bloom (compute_hash env b) = false) :
    (store_content env noFaults now s b).1 = StoreOutcome.ok (compute_hash env b) ∧
    alGet (store_content env noFaults now s b).2.db (compute_hash env b) =
      some (DbValue.metaVal ⟨b.length, (env.encodeAll b).length, none, now, 1⟩) ∧
    alGet (store_content env noFaults now s b).2.disk
      (contentPathOf s.base (hashHexOf env b)) =
      some (FileData.blob (env.encodeAll b)) := by
  have hfresh : (bloomCheck env s.bloom (compute_hash env b) &&
      dbContains s.db (compute_hash env b)) = false := by
    simp [bloomCheck, hbloom, hfp]
  rw [store_content_fresh env now s b hwf hfresh]
  exact ⟨rfl,
    alGet_alInsert_self s.db (compute_hash env b)
      (DbValue.metaVal ⟨b.length, (env.encodeAll b).length, none, now, 1⟩),
    alGet_alInsert_self s.disk (contentPathOf s.base (hashHexOf env b))
      (FileData.blob (env.encodeAll b))⟩

/-- Witness for the amended C4 at the concrete post-restart state `s4`. -/
theorem C4_restart_resets_record_witness :
    (store_content env0 noFaults 9 s4 (pay 0)).1 = StoreOutcome.ok (compute_hash env0 (pay 0)) ∧
    alGet (store_content env0 noFaults 9 s4 (pay 0)).2.db (compute_hash env0 (pay 0)) =
      some (DbValue.metaVal ⟨2, 2, none, 9, 1⟩) :=
  ⟨(C4_restart_resets_record env0 9 s4 (pay 0) ⟨2, 2, none, 0, 5⟩ env0_wf
      (by decide) (by decide) rfl).1,
   (C4_restart_resets_record env0 9 s4 (pay 0) ⟨2, 2, none, 0, 5⟩ env0_wf
      (by decide) (by decide) rfl).2.1⟩

/-- Counterexample to C4 as stated: on the post-restart state `s4` (record
for `pay 0` with reference count 5 in the index, blob on disk, bloom filter
rebuilt empty), storing the same bytes does not increment the count to 6 —
it replaces the record with a fresh one whose reference count is 1. -/
theorem C4_counterexample :
    refCountAt s4 (idOf 0) = some 5 ∧ s4.bloom = [] ∧
    refCountAt (store_content env0 noFaults 9 s4 (pay 0)).2 (idOf 0) = some 1 ∧
    refCountAt (store_content env0 noFaults 9 s4 (pay 0)).2 (idOf 0) ≠ some 6 := by
  decide

/-- C5 (amended): `get_stats` reports `cache_size` as the hot-cache entry
count, `total_size` and `compressed_size` as the sums of the metadata
sizes (exact whenever they fit in a `u64`), and the compression ratio as
`compressed_size / total_size` (`1` when `total_size` is zero) — but
`content_count` is the total number of records in the metadata index:
the distinct content identities plus one record per recorded session. -/
theorem C5_stats (s : StorageState)
    (hts : metaSizeSum s.db < U64) (hcs : metaCompSum s.db < U64) :
    (get_stats s).content_count = countMeta s.db + countPaths s.db ∧
    (get_stats s).cache_size = s.cache.length ∧
    (get_stats s).total_size = metaSizeSum s.db ∧
    (get_stats s).compressed_size = metaCompSum s.db ∧
    (get_stats s).compressionRatioQ =
      (if 0 < metaSizeSum s.db then (metaCompSum s.db : ℚ) / (metaSizeSum s.db : ℚ)
       else 1) := by
  have hsum := sumSizes_eq s.db
  have h1 : metaSizeSum s.db % U64 = metaSizeSum s.db := Nat.mod_eq_of_lt hts
  have h2 : metaCompSum s.db % U64 = metaCompSum s.db := Nat.mod_eq_of_lt hcs
  rw [h1, h2] at hsum
  simp only [get_stats, hsum]
  refine ⟨(countMeta_add_countPaths s.db).symm, ?_, ?_, ?_, ?_⟩ <;> trivial

/-- Witness for the amended C5 at the concrete state `s5`. -/
theorem C5_stats_witness :
    metaSizeSum s5.db < U64 ∧ metaCompSum s5.db < U64 ∧
    (get_stats s5).content_count = countMeta s5.db + countPaths s5.db ∧
    (get_stats s5).total_size = metaSizeSum s5.db :=
  ⟨by decide, by decide,
   (C5_stats s5 (by decide) (by decide)).1,
   (C5_stats s5 (by decide) (by decide)).2.2.1⟩

/-- Counterexample to C5 as stated: after storing one distinct payload and
recording one page fetch, the index holds one content record and one
session record, and `content_count` is 2, not the distinct content count
1. -/
theorem C5_counterexample :
    countMeta s5.db = 1 ∧ countPaths s5.db = 1 ∧
    (get_stats s5).content_count = 2 ∧ (get_stats s5).content_count ≠ 1 := by
  decide

/-- Shape of the state after `k + 1` repeated stores of the same payload on
a fresh storage: one blob, one metadata record whose (wrapping `u32`)
reference count is `(k + 1) % 2^32`, the identity marked, the payload
cached when small; and every call returns the identity without error. -/
theorem storeTimes_shape (env : Env) (hwf : wfEnv env) (now : Nat) (base : Str)
    (b : Bytes) (k : Nat) :
    storeTimes env now b (initState base) (k + 1) =
      oneStoreState env now base b ((k + 1) % 4294967296) ∧
    (store_content env noFaults now (storeTimes env now b (initState base) k) b).1 =
      StoreOutcome.ok (compute_hash env b) := by
  induction k with
  | zero =>
      have hdup : (bloomCheck env (initState base).bloom (compute_hash env b) &&
          dbContains (initState base).db (compute_hash env b)) = false := by
        simp [initState, dbContains, alGet]
      constructor
      · simp only [storeTimes]
        rw [store_content_fresh env now (initState base) b hwf hdup]
        simp [oneStoreState, initState, alInsert, bloomMark]
      · simp only [storeTimes]
        rw [store_content_fresh env now (initState base) b hwf hdup]
  | succ n ih =>
      have hsn := ih.1
      have hget : alGet (oneStoreState env now base b ((n + 1) % 4294967296)).db
          (compute_hash env b) =
          some (DbValue.metaVal ⟨b.length, (env.encodeAll b).length, none, now,
            (n + 1) % 4294967296⟩) := by
        simp [oneStoreState, alGet]
      have hc : bloomCheck env
          (oneStoreState env now base b ((n + 1) % 4294967296)).bloom
          (compute_hash env b) = true := by
        simp [bloomCheck, oneStoreState]
      have hdupres := store_content_dup env noFaults now
        (oneStoreState env now base b ((n + 1) % 4294967296)) b
        ⟨b.length, (env.encodeAll b).length, none, now, (n + 1) % 4294967296⟩ hc hget
      constructor
      · have hstep : storeTimes env now b (initState base) (n + 1 + 1) =
            (store_content env noFaults now
              (storeTimes env now b (initState base) (n + 1)) b).2 := rfl
        rw [hstep, hsn, hdupres]
        simp [oneStoreState, alInsert, Nat.mod_add_mod]
      · rw [hsn, hdupres]

/-- C1 (amended): storing the same non-empty payload `N` times on a fresh
storage creates exactly one blob on disk and exactly one metadata record,
every call returns the same identity without error, and the record's
reference count equals `N` for every `N` below `2^32` (the count is a
wrapping 32-bit integer, so it equals `N % 2^32` in general). -/
theorem C1_dedup_idempotent (env : Env) (now : Nat) (base : Str) (b : Bytes)
    (N : Nat) (hwf : wfEnv env) (_hne : b ≠ []) (h1 : 1 ≤ N) (hN : N < 4294967296) :
    (storeTimes env now b (initState base) N).db =
      [(compute_hash env b,
        DbValue.metaVal ⟨b.length, (env.encodeAll b).length, none, now, N⟩)] ∧
    (storeTimes env now b (initState base) N).disk =
      [(contentPathOf base (hashHexOf env b), FileData.blob (env.encodeAll b))] ∧
    ∀ k, k < N →
      (store_content env noFaults now (storeTimes env now b (initState base) k) b).1 =
        StoreOutcome.ok (compute_hash env b) := by
  obtain ⟨M, rfl⟩ : ∃ M, N = M + 1 := ⟨N - 1, by omega⟩
  have hshape := (storeTimes_shape env hwf now base b M).1
  have hmod : (M + 1) % 4294967296 = M + 1 := Nat.mod_eq_of_lt hN
  rw [hmod] at hshape
  refine ⟨?_, ?_, ?_⟩
  · rw [hshape]; rfl
  · rw [hshape]; rfl
  · intro k _
    exact (storeTimes_shape env hwf now base b k).2

/-- Witness for the amended C1: three stores of `[7]` on a fresh storage
leave one record with reference count 3. -/
theorem C1_dedup_idempotent_witness :
    (storeTimes env0 0 [7] (initState []) 3).db =
      [(compute_hash env0 [7], DbValue.metaVal ⟨1, 1, none, 0, 3⟩)] ∧
    (store_content env0 noFaults 0 (storeTimes env0 0 [7] (initState []) 2) [7]).1 =
      StoreOutcome.ok (compute_hash env0 [7]) :=
  ⟨(C1_dedup_idempotent env0 0 [] [7] 3 env0_wf (by decide) (by decide) (by decide)).1,
   (C1_dedup_idempotent env0 0 [] [7] 3 env0_wf (by decide) (by decide) (by decide)).2.2
     2 (by decide)⟩

/-- Counterexample to C1 as stated (for every `N ≥ 1` the reference count
equals `N`): `reference_count` is a `u32`, so after `N = 2^32` stores of
the same payload the stored count has wrapped to 0, not `2^32`. -/
theorem C1_counterexample :
    refCountAt (storeTimes env0 0 [7] (initState []) 4294967296)
      (compute_hash env0 [7]) = some 0 ∧
    refCountAt (storeTimes env0 0 [7] (initState []) 4294967296)
      (compute_hash env0 [7]) ≠ some 4294967296 := by
  have hshape := (storeTimes_shape env0 env0_wf 0 [] [7] 4294967295).1
  rw [(by norm_num : (4294967295 : Nat) + 1 = 4294967296), Nat.mod_self] at hshape
  rw [hshape]
  constructor
  · simp [refCountAt, oneStoreState, alGet]
  · simp [refCountAt, oneStoreState, alGet]

/-- C6 (amended): store operations keep the hot cache at or below the
1000-entry capacity: whenever a store insertion pushes it over, one entry
is evicted.  (The retrieve path, by contrast, caches without eviction —
see the counterexample to the claim as stated.) -/
theorem C6_store_cache_bounded (env : Env) (now : Nat) (bs : List Bytes)
    (s : StorageState) (h : s.cache.length ≤ 1000) :
    (foldStores env now s bs).cache.length ≤ 1000 := by
  induction bs generalizing s with
  | nil => exact h
  | cons b t ih =>
      simp only [foldStores, List.foldl_cons]
      exact ih ((store_content env noFaults now s b).2)
        (store_cache_bound env noFaults now s b h)

/-- Witness for the amended C6: two stores on a fresh storage keep the
cache within capacity. -/
theorem C6_store_cache_bounded_witness :
    (initState []).cache.length ≤ 1000 ∧
    (foldStores env0 0 (initState []) [[1], [2]]).cache.length ≤ 1000 :=
  ⟨by decide, C6_store_cache_bounded env0 0 [[1], [2]] (initState []) (by decide)⟩

theorem hexDigitChar_inj16 : ∀ a b : Fin 16,
    hexDigitChar a.val = hexDigitChar b.val → a = b := by decide

theorem hexDigitChar_inj (a b : Nat) (ha : a < 16) (hb : b < 16)
    (h : hexDigitChar a = hexDigitChar b) : a = b :=
  congrArg Fin.val (hexDigitChar_inj16 ⟨a, ha⟩ ⟨b, hb⟩ h)

theorem env0_digest_pay (i : Nat) :
    env0.sha256digest (pay i) = i / 256 :: i % 256 :: List.replicate 30 0 := rfl

theorem idOf_inj (i j : Nat) (hi : i < 65536) (hj : j < 65536)
    (h : idOf i = idOf j) : i = j := by
  unfold idOf compute_hash at h
  have h2 := List.append_cancel_left h
  rw [env0_digest_pay, env0_digest_pay] at h2
  simp only [hexEncode, List.cons.injEq] at h2
  obtain ⟨e1, e2, e3, e4, -⟩ := h2
  have d1 : i / 256 / 16 = j / 256 / 16 :=
    hexDigitChar_inj _ _ (by omega) (by omega) e1
  have d2 : i / 256 % 16 = j / 256 % 16 :=
    hexDigitChar_inj _ _ (by omega) (by omega) e2
  have d3 : i % 256 / 16 = j % 256 / 16 :=
    hexDigitChar_inj _ _ (by omega) (by omega) e3
  have d4 : i % 256 % 16 = j % 256 % 16 :=
    hexDigitChar_inj _ _ (by omega) (by omega) e4
  omega

theorem hashHexOf_eq_of_cpath_eq (i j : Nat) (h : cpathOf i = cpathOf j) :
    hashHexOf env0 (pay i) = hashHexOf env0 (pay j) := by
  have hi64 : (hashHexOf env0 (pay i)).length = 64 := hashHexOf_length env0 env0_wf _
  have hj64 : (hashHexOf env0 (pay j)).length = 64 := hashHexOf_length env0 env0_wf _
  unfold cpathOf contentPathOf at h
  simp only [List.nil_append, List.append_assoc] at h
  have h1 := List.append_cancel_left h
  have h2 := (List.append_inj h1 (by rw [List.length_take, List.length_take, hi64, hj64])).2
  have h3 := List.append_cancel_left h2
  have h4 := (List.append_inj h3 (by
    rw [List.length_take, List.length_take, List.length_drop, List.length_drop,
      hi64, hj64])).2
  have h5 := List.append_cancel_left h4
  exact List.append_cancel_right h5

theorem cpathOf_inj (i j : Nat) (hi : i < 65536) (hj : j < 65536)
    (h : cpathOf i = cpathOf j) : i = j := by
  apply idOf_inj i j hi hj
  unfold idOf compute_hash
  rw [show hexEncode (env0.sha256digest (pay i)) = hashHexOf env0 (pay i) from rfl,
    show hexEncode (env0.sha256digest (pay j)) = hashHexOf env0 (pay j) from rfl,
    hashHexOf_eq_of_cpath_eq i j h]

theorem idOf_not_mem_range (n : Nat) (hn : n < 65536) :
    idOf n ∉ (List.range n).map idOf := by
  intro hmem
  obtain ⟨j, hj, hje⟩ := List.mem_map.mp hmem
  have hjn := List.mem_range.mp hj
  have := idOf_inj j n (by omega) hn hje
  omega

theorem cpathOf_not_mem_range (n : Nat) (hn : n < 65536) :
    cpathOf n ∉ (List.range n).map cpathOf := by
  intro hmem
  obtain ⟨j, hj, hje⟩ := List.mem_map.mp hmem
  have hjn := List.mem_range.mp hj
  have := cpathOf_inj j n (by omega) hn hje
  omega

theorem stateK_base (n : Nat) : (stateK n).base = [] := rfl

theorem stateK_db_keys (n : Nat) :
    ((stateK n).db).map Prod.fst = (List.range n).map idOf := by
  simp [stateK, List.map_map, Function.comp]

theorem stateK_cache_keys (n : Nat) (hn : n ≤ 1000) :
    ((stateK n).cache).map Prod.fst = (List.range n).map idOf := by
  simp [stateK, hn, List.map_map, Function.comp]

theorem stateK_disk_keys (n : Nat) :
    ((stateK n).disk).map Prod.fst = (List.range n).map cpathOf := by
  simp [stateK, List.map_map, Function.comp]

theorem stateK_step (n : Nat) (hn : n ≤ 1000) :
    (store_content env0 noFaults 0 (stateK n) (pay n)).2 = stateK (n + 1) := by
  have hn16 : n < 65536 := by omega
  have hid_not := idOf_not_mem_range n hn16
  have hget_db : alGet (stateK n).db (compute_hash env0 (pay n)) = none := by
    apply alGet_none_of_not_mem_keys
    rw [stateK_db_keys]
    exact hid_not
  have hget_cache : alGet (stateK n).cache (compute_hash env0 (pay n)) = none := by
    apply alGet_none_of_not_mem_keys
    rw [stateK_cache_keys n hn]
    exact hid_not
  have hget_disk : alGet (stateK n).disk (cpathOf n) = none := by
    apply alGet_none_of_not_mem_keys
    rw [stateK_disk_keys]
    exact cpathOf_not_mem_range n hn16
  have hfresh : (bloomCheck env0 (stateK n).bloom (compute_hash env0 (pay n)) &&
      dbContains (stateK n).db (compute_hash env0 (pay n))) = false := by
    simp [dbContains, hget_db]
  rw [store_content_fresh env0 0 (stateK n) (pay n) env0_wf hfresh]
  have hdb2 : alInsert (stateK n).db (compute_hash env0 (pay n))
      (DbValue.metaVal ⟨(pay n).length, (env0.encodeAll (pay n)).length, none, 0, 1⟩) =
      (stateK (n + 1)).db := by
    rw [alInsert_of_get_none _ _ _ hget_db]
    simp [stateK, List.range_succ, pay, env0, idOf]
  have hbloom_not : compute_hash env0 (pay n) ∉ (stateK n).bloom := by
    simp only [stateK, List.mem_reverse]
    exact hid_not
  have hbloom2 : bloomMark (stateK n).bloom (compute_hash env0 (pay n)) =
      (stateK (n + 1)).bloom := by
    rw [bloomMark, if_neg hbloom_not]
    simp [stateK, List.range_succ, idOf]
  have hdisk2 : alInsert (stateK n).disk
      (contentPathOf (stateK n).base (hashHexOf env0 (pay n)))
      (FileData.blob (env0.encodeAll (pay n))) = (stateK (n + 1)).disk := by
    rw [show contentPathOf (stateK n).base (hashHexOf env0 (pay n)) = cpathOf n from rfl]
    rw [alInsert_of_get_none _ _ _ hget_disk]
    simp [stateK, List.range_succ, pay, env0, cpathOf]
  have hsmall : (pay n).length < 1000000 := by simp [pay]
  have hcache_ins : alInsert (stateK n).cache (compute_hash env0 (pay n)) (pay n) =
      (List.range (n + 1)).map (fun i => (idOf i, pay i)) := by
    rw [alInsert_of_get_none _ _ _ hget_cache]
    simp [stateK, hn, List.range_succ, idOf]
  have hcache_len : (alInsert (stateK n).cache (compute_hash env0 (pay n)) (pay n)).length =
      n + 1 := by
    rw [hcache_ins]
    simp
  by_cases hc : n + 1 ≤ 1000
  · have hnev : ¬ 1000 < (alInsert (stateK n).cache (compute_hash env0 (pay n)) (pay n)).length := by
      rw [hcache_len]; omega
    simp only [hsmall, if_pos hsmall, hnev, if_neg hnev, hdb2, hbloom2, hdisk2, hcache_ins]
    simp [stateK, hc, hn]
  · have hn1000 : n = 1000 := by omega
    have hev : 1000 < (alInsert (stateK n).cache (compute_hash env0 (pay n)) (pay n)).length := by
      rw [hcache_len]; omega
    simp only [hsmall, if_pos hsmall, hev, if_pos hev, hdb2, hbloom2, hdisk2, hcache_ins]
    simp [stateK, hc, hn]

theorem storeSeq_stateK : ∀ k, k ≤ 1001 → storeSeq k = stateK k := by
  intro k
  induction k with
  | zero => intro _; simp [storeSeq, stateK, initState]
  | succ n ih =>
      intro hk
      rw [storeSeq, ih (by omega), stateK_step n (by omega)]

/-- Counterexample to C6 as stated: from a fresh storage, store the 1001
distinct two-byte payloads `pay 0, …, pay 1000` (the cache holds 1000 of
them, `pay 0` having been evicted), then retrieve `pay 0`'s identity.  The
retrieve path re-inserts it into the hot cache without any eviction, so the
cache ends at 1001 entries — above the 1000-entry capacity bound that the
claim says every insertion maintains. -/
theorem C6_counterexample :
    (retrieve_content env0 (storeSeq 1001) (idOf 0)).2.cache.length = 1001 := by
  rw [storeSeq_stateK 1001 (by omega)]
  have h1 : List.range 1001 = 0 :: (List.range 1000).map Nat.succ := by
    rw [show (1001 : Nat) = 1000 + 1 from rfl, List.range_succ_eq_map]
  have hcache : (stateK 1001).cache =
      (List.range 1000).map (fun i => (idOf (i + 1), pay (i + 1))) := by
    simp only [stateK, h1]
    rw [if_neg (by omega : ¬ (1001 : Nat) ≤ 1000)]
    simp [List.map_map, Function.comp, Nat.succ_eq_add_one]
  have hget_cache : alGet (stateK 1001).cache (idOf 0) = none := by
    apply alGet_none_of_not_mem_keys
    rw [hcache, List.map_map]
    intro hmem
    obtain ⟨j, hj, hje⟩ := List.mem_map.mp hmem
    have hjn := List.mem_range.mp hj
    simp only [Function.comp] at hje
    have : j + 1 = 0 := idOf_inj (j + 1) 0 (by omega) (by omega) hje
    omega
  have hdisk : (stateK 1001).disk =
      (cpathOf 0, FileData.blob (pay 0)) ::
        (List.range 1000).map (fun i => (cpathOf (i + 1), FileData.blob (pay (i + 1)))) := by
    simp only [stateK, h1]
    simp [List.map_map, Function.comp, Nat.succ_eq_add_one]
  have hstrip : stripTag? sha256Tag (idOf 0) = some (hashHexOf env0 (pay 0)) :=
    stripTag?_append sha256Tag (hashHexOf env0 (pay 0))
  have hpath : get_content_path (stateK 1001).base (hashHexOf env0 (pay 0)) =
      some (cpathOf 0) := by
    rw [stateK_base]
    exact get_content_path_of_len [] (hashHexOf env0 (pay 0))
      (by rw [hashHexOf_length env0 env0_wf]; omega)
  have hget_disk : alGet (stateK 1001).disk (cpathOf 0) = some (FileData.blob (pay 0)) := by
    rw [hdisk]
    simp [alGet]
  have hdec : env0.decodeAll (pay 0) = some (pay 0) := rfl
  have hsmall : (pay 0).length < 1000000 := by simp [pay]
  simp only [retrieve_content, hget_cache, hstrip, Option.getD_some, hpath, hget_disk,
    hdec, hsmall, if_pos hsmall]
  rw [alInsert_of_get_none _ _ _ hget_cache]
  rw [hcache]
  simp
